import Mathlib

/-!
Verification of the task_manager repository: a shallow embedding of the
domain objects (`ToDoItem`, `Task`, `State`), the persistence encoding
(`to_dict` / `from_dict`) and the service layer (`TaskService`) operating
over the stored collection, together with proofs of the specified
invariants and behaviours.

Modelling conventions:
* timestamps (`datetime`) are abstracted as natural numbers (seconds);
  `isoformat` / `fromisoformat` become a decimal string codec, which shares
  the property the spec relies on: an injective encoding with an exact
  parser (`fromiso (iso n) = some n`) producing a non-empty (truthy) string;
* the repository is its stored content, a `List Task` (the JSON file);
  each service call re-reads it, mutates values, and writes back, exactly
  as `JsonTaskRepository` parses fresh objects on every read;
* Python exceptions become `Option` results (`none` = the operation raised
  before its write and did not complete);
* `list.insert` keeps Python semantics, including negative indices counting
  from the end (`pyInsert`).
-/

namespace TaskManager

/-- Timestamps: seconds, abstracting Python `datetime`. -/
abbrev DateTime := Nat

/-- Decimal digit to character, as used by the timestamp codec. -/
def digitChar (d : Nat) : Char := Char.ofNat (48 + d)

/-- Character back to decimal digit; `none` on a non-digit. -/
def charDigit (c : Char) : Option Nat :=
  if 48 ≤ c.toNat ∧ c.toNat ≤ 57 then some (c.toNat - 48) else none

/-- Source `datetime.isoformat`: injective rendering of a timestamp as a string. -/
def iso (n : Nat) : String :=
  if n = 0 then "0" else String.mk (((Nat.digits 10 n).map digitChar).reverse)

/-- Decode a list of characters as decimal digits; `none` on a non-digit. -/
def decodeDigits : List Char → Option (List Nat)
  | [] => some []
  | c :: cs => do
      let d ← charDigit c
      let ds ← decodeDigits cs
      pure (d :: ds)

/-- Source `datetime.fromisoformat`: exact parser for `iso`, failing on other input. -/
def fromiso (s : String) : Option Nat :=
  match s.toList with
  | [] => none
  | c :: cs => do
      let ds ← decodeDigits (c :: cs)
      pure (Nat.ofDigits 10 ds.reverse)

/-- Task state enumeration (`task_manager/domain/state.py`). -/
inductive State where
  | pending
  | in_progress
  | completed
  | failed
  | cancelled
  | paused
deriving DecidableEq, Repr

/-- The integer ordinal persisted for a state (`state.value`). -/
def State.toVal : State → Int
  | .pending => 1
  | .in_progress => 2
  | .completed => 3
  | .failed => 4
  | .cancelled => 5
  | .paused => 6

/-- Source `State(value)`: recover a state from its ordinal, failing otherwise. -/
def State.ofVal (v : Int) : Option State :=
  if v = 1 then some .pending
  else if v = 2 then some .in_progress
  else if v = 3 then some .completed
  else if v = 4 then some .failed
  else if v = 5 then some .cancelled
  else if v = 6 then some .paused
  else none

/-- Source `ToDoItem` (`task_manager/domain/todo_item.py`). -/
structure ToDoItem where
  guid : String
  text : String
  position : Int
  completed : Bool
  created_at : DateTime
  completed_at : Option DateTime
deriving DecidableEq, Repr

namespace ToDoItem

/-- Source `ToDoItem.mark_complete`: guarded, a no-op on an already completed item. -/
def mark_complete (now : DateTime) (it : ToDoItem) : ToDoItem :=
  if it.completed then it
  else { it with completed := true, completed_at := some now }

/-- Source `ToDoItem.create(text)`: the factory; `guid` and `now` stand for the
`uuid4()` and `datetime.now()` calls. The source performs no validation. -/
def create (text : String) (guid : String) (now : DateTime) : ToDoItem :=
  { guid := guid
    text := text
    position := 0
    completed := false
    created_at := now
    completed_at := none }

end ToDoItem

/-- The persisted dictionary shape of a `ToDoItem` (`to_dict`). -/
structure ToDoItemDict where
  guid : String
  text : String
  position : Int
  completed : Bool
  created_at : String
  completed_at : Option String
deriving DecidableEq, Repr

/-- Source `ToDoItem.to_dict`. -/
def ToDoItem.toDict (it : ToDoItem) : ToDoItemDict :=
  { guid := it.guid
    text := it.text
    position := it.position
    completed := it.completed
    created_at := iso it.created_at
    completed_at := it.completed_at.map iso }

/-- Source `ToDoItem.from_dict`: `none` models a raised exception. The
`completed_at` branch reproduces Python truthiness: absent or empty string
both decode to `None`. -/
def ToDoItem.fromDict (d : ToDoItemDict) : Option ToDoItem := do
  let ca ← fromiso d.created_at
  let compAt ← match d.completed_at with
    | some s => if s = "" then pure none else (fromiso s).map some
    | none => pure none
  pure { guid := d.guid
         text := d.text
         position := d.position
         completed := d.completed
         created_at := ca
         completed_at := compAt }

/-- Source `Task` (`task_manager/domain/task.py`). -/
structure Task where
  guid : String
  title : String
  position : Int
  state : State
  deadline : DateTime
  created_at : DateTime
  description : Option String
  responsible : Option String
  completed_at : Option DateTime
  created_by : Option String
  todo : List ToDoItem
deriving DecidableEq, Repr

/-- Python `list.insert(i, x)` with its exact index clamping: a negative
index counts from the end, then both directions clamp into `[0, len]`. -/
def pyInsert (l : List α) (i : Int) (x : α) : List α :=
  let j : Nat := if i < 0 then ((l.length : Int) + i).toNat else min i.toNat l.length
  l.take j ++ x :: l.drop j

/-- Python `list.remove(x)`: drop the first element equal to `x`
(no-op branch is unreachable in the source's call sites). -/
def removeFirst [DecidableEq α] (x : α) : List α → List α
  | [] => []
  | y :: ys => if y = x then ys else y :: removeFirst x ys

/-- Source `next((i for i in todo if i.guid == guid), None)`. -/
def findTodo (g : String) : List ToDoItem → Option ToDoItem
  | [] => none
  | it :: its => if it.guid = g then some it else findTodo g its

/-- The canonical position sequence `[k, k+1, ..., k+n-1]`. -/
def posSeq (k : Int) : Nat → List Int
  | 0 => []
  | n + 1 => k :: posSeq (k + 1) n

namespace Task

/-- Source `Task._normalize_positions`: `enumerate(todo, start=1)` reassignment. -/
def normAux (k : Int) : List ToDoItem → List ToDoItem
  | [] => []
  | it :: its => { it with position := k } :: normAux (k + 1) its

/-- Source `Task._normalize_positions` applied to an item list. -/
def normalizePositions (l : List ToDoItem) : List ToDoItem := normAux 1 l

/-- Source `Task.is_complete`. -/
def is_complete (t : Task) : Bool :=
  if t.state = State.completed then true else t.todo.all (·.completed)

/-- Source `Task.mark_complete`: sets state and `completed_at` unconditionally and
cascades completion to every owned item. -/
def mark_complete (now : DateTime) (t : Task) : Task :=
  { t with state := State.completed
           completed_at := some now
           todo := t.todo.map (ToDoItem.mark_complete now) }

/-- Source `Task.add_todo_item`: append, overwriting the item's position. -/
def add_todo_item (t : Task) (it : ToDoItem) : Task :=
  { t with todo := t.todo ++ [{ it with position := (t.todo.length : Int) + 1 }] }

/-- Source `Task.remove_todo_item`: filter by guid, then renormalize. -/
def remove_todo_item (t : Task) (g : String) : Task :=
  { t with todo := normalizePositions (t.todo.filter (fun it => it.guid ≠ g)) }

/-- Source `Task.reorder_item`: `none` models the `ValueError` on a missing item;
otherwise remove, reinsert with Python `insert` semantics, renormalize. -/
def reorder_item (t : Task) (g : String) (new_position : Int) : Option Task :=
  match findTodo g t.todo with
  | none => none
  | some it =>
      some { t with todo :=
        normalizePositions (pyInsert (removeFirst it t.todo) (new_position - 1) it) }

/-- Source `Task.todo_count`. -/
def todo_count (t : Task) : Nat := t.todo.length

end Task

/-- The persisted dictionary shape of a `Task` (`to_dict`). -/
structure TaskDict where
  guid : String
  title : String
  position : Int
  state : Int
  deadline : String
  created_at : String
  completed_at : Option String
  created_by : Option String
  responsible : Option String
  description : Option String
  todo : List ToDoItemDict
deriving DecidableEq, Repr

/-- Source `Task.to_dict`. -/
def Task.toDict (t : Task) : TaskDict :=
  { guid := t.guid
    title := t.title
    position := t.position
    state := t.state.toVal
    deadline := iso t.deadline
    created_at := iso t.created_at
    completed_at := t.completed_at.map iso
    created_by := t.created_by
    responsible := t.responsible
    description := t.description
    todo := t.todo.map ToDoItem.toDict }

/-- Decode a list of item dictionaries, failing if any entry fails. -/
def decodeItems : List ToDoItemDict → Option (List ToDoItem)
  | [] => some []
  | d :: ds => do
      let it ← ToDoItem.fromDict d
      let its ← decodeItems ds
      pure (it :: its)

/-- Source `Task.from_dict`: `none` models a raised exception; `completed_at`
follows the same truthiness rule as for items. -/
def Task.fromDict (d : TaskDict) : Option Task := do
  let st ← State.ofVal d.state
  let dl ← fromiso d.deadline
  let ca ← fromiso d.created_at
  let compAt ← match d.completed_at with
    | some s => if s = "" then pure none else (fromiso s).map some
    | none => pure none
  let items ← decodeItems d.todo
  pure { guid := d.guid
         title := d.title
         position := d.position
         state := st
         deadline := dl
         created_at := ca
         completed_at := compAt
         created_by := d.created_by
         responsible := d.responsible
         description := d.description
         todo := items }

/-! Service layer (`task_manager/services/task_service.py`). The repository
is its stored content, a `List Task`; each operation maps the stored list to
the stored list after the operation's writes. -/

/-- Stored collection of the JSON repository. -/
abbrev Repo := List Task

/-- Source `JsonTaskRepository.get_by_guid`: first stored task with the guid. -/
def getByGuid : Repo → String → Option Task
  | [], _ => none
  | t :: ts, g => if t.guid = g then some t else getByGuid ts g

/-- Source `JsonTaskRepository.update`: replace the first task with the same guid;
`none` models the `ValueError` when no task matches. -/
def repoUpdate : Repo → Task → Option Repo
  | [], _ => none
  | x :: xs, t =>
      if x.guid = t.guid then some (t :: xs)
      else (repoUpdate xs t).map (x :: ·)

/-- Stable insertion into a position-sorted list (equal keys keep order). -/
def insertByPos (t : Task) : List Task → List Task
  | [] => [t]
  | x :: xs =>
      if t.position ≤ x.position then t :: x :: xs else x :: insertByPos t xs

/-- Python `sorted(tasks, key=lambda t: t.position)`: a stable sort. -/
def sortByPos : List Task → List Task
  | [] => []
  | x :: xs => insertByPos x (sortByPos xs)

/-- Source `enumerate(tasks, start=1)` position reassignment for tasks. -/
def assignPos (k : Int) : List Task → List Task
  | [] => []
  | t :: ts => { t with position := k } :: assignPos (k + 1) ts

/-- Source `TaskService._normalize_all_positions`: sort the stored tasks by
position, renumber 1..M, and store the renumbered sorted list. -/
def normalizeAll (repo : Repo) : Repo := assignPos 1 (sortByPos repo)

namespace TaskService

/-- Source `TaskService.create`: append (`GenericService.create` / `repo.add`),
then renormalize the whole collection. -/
def create (repo : Repo) (t : Task) : Repo := normalizeAll (repo ++ [t])

/-- Source `TaskService.delete`: remove by guid (`repo.delete`), then renormalize. -/
def delete (repo : Repo) (g : String) : Repo :=
  normalizeAll (repo.filter (fun t => t.guid ≠ g))

/-- Source `TaskService.move_task`: `none` models the `ValueError` on a missing
guid; otherwise remove the task, reinsert with Python `insert` semantics,
renumber 1..M and replace the whole collection. -/
def move_task (repo : Repo) (g : String) (new_position : Int) : Option Repo :=
  match getByGuid repo g with
  | none => none
  | some t =>
      some (assignPos 1 (pyInsert (repo.filter (fun x => x.guid ≠ g)) (new_position - 1) t))

/-- Source `TaskService.set_state`: fetch, set only the state field, write back. -/
def set_state (repo : Repo) (g : String) (s : State) : Option Repo :=
  match getByGuid repo g with
  | none => none
  | some t => repoUpdate repo { t with state := s }

/-- The `**kwargs` of `update_task`, as a typed patch: `some v` means the
field name was present with value `v` (for optional fields, `some none`
means it was present with value `None`). -/
structure TaskPatch where
  title : Option String := none
  position : Option Int := none
  state : Option State := none
  deadline : Option DateTime := none
  completed_at : Option (Option DateTime) := none
  description : Option (Option String) := none
deriving Repr

/-- Source `setattr(task, field, value)` for every supplied field. -/
def applyPatch (t : Task) (p : TaskPatch) : Task :=
  let t := match p.title with | none => t | some v => { t with title := v }
  let t := match p.position with | none => t | some v => { t with position := v }
  let t := match p.state with | none => t | some v => { t with state := v }
  let t := match p.deadline with | none => t | some v => { t with deadline := v }
  let t := match p.completed_at with | none => t | some v => { t with completed_at := v }
  match p.description with | none => t | some v => { t with description := v }

/-- Source `TaskService.update_task`: fetch a fresh copy, apply the fields, check
the cross-field invariant, renormalize the stored collection when
`position` is among the fields, then write the patched task back. The
renormalization reads the stored tasks, not the in-memory patched one. -/
def update_task (repo : Repo) (g : String) (p : TaskPatch) : Option Repo :=
  match getByGuid repo g with
  | none => none
  | some t =>
      let t := applyPatch t p
      if t.completed_at.isSome ∧ t.state ≠ State.completed then none
      else
        let repo := if p.position.isSome then normalizeAll repo else repo
        repoUpdate repo t

/-- Source `tasks or self.repo.list_all()`: an absent or empty (falsy) argument
falls back to the stored collection. -/
def pickTasks (arg : Option (List Task)) (repo : Repo) : List Task :=
  match arg with
  | none => repo
  | some l => if l.isEmpty then repo else l

/-- Source `TaskService.filter_by_state`. -/
def filter_by_state (s : State) (arg : Option (List Task)) (repo : Repo) : List Task :=
  (pickTasks arg repo).filter (fun t => t.state = s)

/-- Lower-case a string character-wise (`str.lower`). -/
def strLower (s : String) : String := String.mk (s.toList.map Char.toLower)

/-- Does `hay` start with `needle`? -/
def startsWithL : List Char → List Char → Bool
  | [], _ => true
  | _ :: _, [] => false
  | n :: ns, h :: hs => n = h && startsWithL ns hs

/-- Python `needle in hay` on strings: contiguous substring test. -/
def hasSub (needle : List Char) : List Char → Bool
  | [] => needle.isEmpty
  | c :: cs => startsWithL needle (c :: cs) || hasSub needle cs

/-- Source `TaskService.filter_by_title`: case-insensitive substring match. -/
def filter_by_title (kw : String) (arg : Option (List Task)) (repo : Repo) : List Task :=
  (pickTasks arg repo).filter
    (fun t => hasSub (strLower kw).toList (strLower t.title).toList)

/-- Source `TaskService.filter_due_soon`: `now <= deadline <= now + days`;
`timedelta(days=d)` is `d * 86400` seconds. -/
def filter_due_soon (days : Nat) (now : DateTime) (arg : Option (List Task))
    (repo : Repo) : List Task :=
  (pickTasks arg repo).filter
    (fun t => now ≤ t.deadline && t.deadline ≤ now + days * 86400)

end TaskService

/-! Operation sequences over one task's item list, for the per-task
ordering invariant. A raised exception (`reorder_item` on a missing guid)
aborts before any mutation, leaving the task unchanged. -/

/-- One item-list operation on a task. -/
inductive TodoOp where
  | add (it : ToDoItem)
  | remove (g : String)
  | reorder (g : String) (p : Int)

/-- Apply one operation; a raising `reorder_item` leaves the task as is. -/
def applyTodoOp (t : Task) : TodoOp → Task
  | .add it => t.add_todo_item it
  | .remove g => t.remove_todo_item g
  | .reorder g p => (t.reorder_item g p).getD t

/-- Apply a sequence of operations left to right. -/
def runOps (t : Task) (ops : List TodoOp) : Task := ops.foldl applyTodoOp t

/-- The item positions are exactly `[1, 2, ..., N]` in stored order. -/
def itemsNormalized (l : List ToDoItem) : Prop :=
  l.map (·.position) = posSeq 1 l.length

/-- The task positions are exactly `[1, 2, ..., M]` in stored order. -/
def tasksNormalized (l : List Task) : Prop :=
  l.map (·.position) = posSeq 1 l.length

/-! Concrete sample data for evaluating the definitions. -/

/-- Sample item at position 1. -/
def itA : ToDoItem :=
  { guid := "a", text := "A", position := 1, completed := false,
    created_at := 0, completed_at := none }

/-- Sample item at position 2. -/
def itB : ToDoItem :=
  { guid := "b", text := "B", position := 2, completed := false,
    created_at := 0, completed_at := none }

/-- Sample item at position 3. -/
def itC : ToDoItem :=
  { guid := "c", text := "C", position := 3, completed := false,
    created_at := 0, completed_at := none }

/-- Sample task owning items `a`, `b`, `c`. -/
def task3 : Task :=
  { guid := "t", title := "T", position := 1, state := State.pending,
    deadline := 10, created_at := 0, description := none, responsible := none,
    completed_at := none, created_by := none, todo := [itA, itB, itC] }

/-- Sample task with no items. -/
def task0 : Task :=
  { guid := "e", title := "E", position := 1, state := State.pending,
    deadline := 10, created_at := 0, description := none, responsible := none,
    completed_at := none, created_by := none, todo := [] }

/-- Sample completed task carrying a completion timestamp. -/
def taskDone : Task :=
  { guid := "d", title := "D", position := 1, state := State.completed,
    deadline := 10, created_at := 0, description := none, responsible := none,
    completed_at := some 5, created_by := none, todo := [] }

/-! Helper lemmas about the position sequence and the renumbering passes. -/

theorem posSeq_snoc (k : Int) (n : Nat) :
    posSeq k (n + 1) = posSeq k n ++ [k + n] := by
  induction n generalizing k with
  | zero => simp [posSeq]
  | succ m ih =>
      have h1 : posSeq k (m + 1 + 1) = k :: posSeq (k + 1) (m + 1) := rfl
      have h2 : posSeq k (m + 1) = k :: posSeq (k + 1) m := rfl
      rw [h1, ih, h2, List.cons_append]
      have h3 : (k + 1) + (m : Int) = k + ((m : Nat) + (1 : Nat) : Nat) := by
        push_cast
        ring
      rw [h3]

theorem mem_posSeq (p k : Int) (n : Nat) : p ∈ posSeq k n ↔ k ≤ p ∧ p < k + n := by
  induction n generalizing k with
  | zero => simp [posSeq]
  | succ m ih =>
      simp only [posSeq, List.mem_cons, ih]
      omega

theorem length_normAux (k : Int) (l : List ToDoItem) :
    (Task.normAux k l).length = l.length := by
  induction l generalizing k with
  | nil => rfl
  | cons x xs ih => simp [Task.normAux, ih]

theorem map_pos_normAux (k : Int) (l : List ToDoItem) :
    (Task.normAux k l).map (·.position) = posSeq k l.length := by
  induction l generalizing k with
  | nil => rfl
  | cons x xs ih => simp [Task.normAux, posSeq, ih]

theorem map_guid_normAux (k : Int) (l : List ToDoItem) :
    (Task.normAux k l).map (·.guid) = l.map (·.guid) := by
  induction l generalizing k with
  | nil => rfl
  | cons x xs ih => simp [Task.normAux, ih]

theorem itemsNormalized_normalizePositions (l : List ToDoItem) :
    itemsNormalized (Task.normalizePositions l) := by
  unfold itemsNormalized Task.normalizePositions
  rw [length_normAux, map_pos_normAux]

theorem length_assignPos (k : Int) (l : List Task) :
    (assignPos k l).length = l.length := by
  induction l generalizing k with
  | nil => rfl
  | cons x xs ih => simp [assignPos, ih]

theorem map_pos_assignPos (k : Int) (l : List Task) :
    (assignPos k l).map (·.position) = posSeq k l.length := by
  induction l generalizing k with
  | nil => rfl
  | cons x xs ih => simp [assignPos, posSeq, ih]

theorem tasksNormalized_assignPos (l : List Task) :
    tasksNormalized (assignPos 1 l) := by
  unfold tasksNormalized
  rw [length_assignPos, map_pos_assignPos]

theorem tasksNormalized_normalizeAll (repo : Repo) :
    tasksNormalized (normalizeAll repo) := tasksNormalized_assignPos _

theorem itemsNormalized_append (l : List ToDoItem) (it : ToDoItem)
    (h : itemsNormalized l) :
    itemsNormalized (l ++ [{ it with position := (l.length : Int) + 1 }]) := by
  unfold itemsNormalized at h ⊢
  simp only [List.map_append, List.length_append, List.map_cons, List.map_nil,
    List.length_cons, List.length_nil]
  rw [h, posSeq_snoc]
  have : (1 : Int) + (l.length : Int) = (l.length : Int) + 1 := by ring
  rw [this]

theorem itemsNormalized_applyTodoOp (t : Task) (op : TodoOp)
    (h : itemsNormalized t.todo) : itemsNormalized (applyTodoOp t op).todo := by
  cases op with
  | add it =>
      simpa [applyTodoOp, Task.add_todo_item] using itemsNormalized_append t.todo it h
  | remove g =>
      simpa [applyTodoOp, Task.remove_todo_item] using
        itemsNormalized_normalizePositions (t.todo.filter (fun it => it.guid ≠ g))
  | reorder g p =>
      simp only [applyTodoOp, Task.reorder_item]
      cases hf : findTodo g t.todo with
      | none => simpa using h
      | some it => simpa using itemsNormalized_normalizePositions _

theorem itemsNormalized_runOps (t : Task) (ops : List TodoOp)
    (h : itemsNormalized t.todo) : itemsNormalized (runOps t ops).todo := by
  induction ops generalizing t with
  | nil => exact h
  | cons op rest ih => exact ih (applyTodoOp t op) (itemsNormalized_applyTodoOp t op h)

theorem positions_set_of_normalized (l : List ToDoItem) (h : itemsNormalized l)
    (p : Int) : (∃ it ∈ l, it.position = p) ↔ 1 ≤ p ∧ p ≤ l.length := by
  have hm : p ∈ l.map (·.position) ↔ ∃ it ∈ l, it.position = p := List.mem_map
  rw [← hm, h, mem_posSeq]
  omega

/-! Helper lemmas for the persistence codec. -/

theorem charDigit_digitChar (d : Nat) (h : d < 10) :
    charDigit (digitChar d) = some d := by
  interval_cases d <;> rfl

theorem decode_encode (ds : List Nat) (h : ∀ d ∈ ds, d < 10) :
    decodeDigits (ds.map digitChar) = some ds := by
  induction ds with
  | nil => rfl
  | cons d rest ih =>
      have hd : d < 10 := h d (List.mem_cons_self d rest)
      have hrest : ∀ x ∈ rest, x < 10 := fun x hx => h x (List.mem_cons_of_mem d hx)
      simp [decodeDigits, charDigit_digitChar d hd, ih hrest]

theorem fromiso_iso (n : Nat) : fromiso (iso n) = some n := by
  by_cases h0 : n = 0
  · subst h0
    rfl
  · have hne : Nat.digits 10 n ≠ [] := Nat.digits_ne_nil_iff_ne_zero.mpr h0
    have hlt : ∀ d ∈ (Nat.digits 10 n).reverse, d < 10 := by
      intro d hd
      exact Nat.digits_lt_base (by norm_num) (List.mem_reverse.mp hd)
    have hrw : iso n = String.mk (((Nat.digits 10 n).reverse).map digitChar) := by
      unfold iso
      rw [if_neg h0, List.map_reverse]
    have hdec : decodeDigits (((Nat.digits 10 n).reverse).map digitChar)
        = some ((Nat.digits 10 n).reverse) := decode_encode _ hlt
    rw [hrw]
    cases hds : ((Nat.digits 10 n).reverse).map digitChar with
    | nil =>
        exfalso
        apply hne
        have hlen := congrArg List.length hds
        simp at hlen
        exact hlen
    | cons c cs =>
        unfold fromiso
        have hlist : (String.mk (c :: cs)).toList = c :: cs := rfl
        rw [hds] at hdec
        simp only [hlist, hdec, Option.bind_eq_bind, Option.some_bind]
        rw [List.reverse_reverse, Nat.ofDigits_digits]
        rfl

theorem iso_ne_empty (n : Nat) : iso n ≠ "" := by
  by_cases h0 : n = 0
  · subst h0
    intro h
    simp [iso] at h
  · intro h
    have hne : Nat.digits 10 n ≠ [] := Nat.digits_ne_nil_iff_ne_zero.mpr h0
    unfold iso at h
    rw [if_neg h0] at h
    have hdata := congrArg String.toList h
    have : (((Nat.digits 10 n).map digitChar).reverse) = [] := hdata
    simp at this
    exact hne this

theorem State.ofVal_toVal (s : State) : State.ofVal s.toVal = some s := by
  cases s <;> rfl

theorem todoItem_fromDict_toDict (it : ToDoItem) :
    ToDoItem.fromDict it.toDict = some it := by
  cases it with
  | mk guid text position completed created_at completed_at =>
      cases completed_at with
      | none =>
          simp [ToDoItem.toDict, ToDoItem.fromDict, fromiso_iso]
      | some ca =>
          simp [ToDoItem.toDict, ToDoItem.fromDict, fromiso_iso, iso_ne_empty ca]

theorem decodeItems_map_toDict (l : List ToDoItem) :
    decodeItems (l.map ToDoItem.toDict) = some l := by
  induction l with
  | nil => rfl
  | cons it rest ih => simp [decodeItems, todoItem_fromDict_toDict, ih]

theorem task_fromDict_toDict (t : Task) : Task.fromDict t.toDict = some t := by
  cases t with
  | mk guid title position state deadline created_at description responsible
      completed_at created_by todo =>
      cases completed_at with
      | none =>
          simp [Task.toDict, Task.fromDict, fromiso_iso, State.ofVal_toVal,
            decodeItems_map_toDict]
      | some ca =>
          simp [Task.toDict, Task.fromDict, fromiso_iso, State.ofVal_toVal,
            decodeItems_map_toDict, iso_ne_empty ca]

/-! Helper lemmas for insertion, lookup and replacement. -/

theorem length_pyInsert (l : List α) (i : Int) (x : α) :
    (pyInsert l i x).length = l.length + 1 := by
  unfold pyInsert
  simp only [List.length_append, List.length_cons, List.length_take, List.length_drop]
  omega

theorem map_pyInsert (f : α → β) (l : List α) (i : Int) (x : α) :
    (pyInsert l i x).map f = pyInsert (l.map f) i (f x) := by
  unfold pyInsert
  simp [List.map_take, List.map_drop]

theorem pyInsert_front (l : List α) (i : Int) (x : α)
    (h : i = 0 ∨ (l.length : Int) + i ≤ 0) : pyInsert l i x = x :: l := by
  unfold pyInsert
  rcases h with h | h
  · subst h
    simp
  · by_cases hneg : i < 0
    · rw [if_pos hneg]
      have : ((l.length : Int) + i).toNat = 0 := by omega
      rw [this]
      simp
    · have hi : i = 0 := by omega
      subst hi
      simp

theorem pyInsert_back (l : List α) (i : Int) (x : α)
    (h : (l.length : Int) ≤ i) : pyInsert l i x = l ++ [x] := by
  unfold pyInsert
  have hneg : ¬ i < 0 := by omega
  rw [if_neg hneg]
  have hmin : min i.toNat l.length = l.length := by omega
  rw [hmin]
  simp

theorem findTodo_mem (g : String) (l : List ToDoItem) (it : ToDoItem)
    (h : findTodo g l = some it) : it ∈ l ∧ it.guid = g := by
  induction l with
  | nil => exact absurd h (by simp [findTodo])
  | cons x xs ih =>
      by_cases hx : x.guid = g
      · rw [findTodo, if_pos hx] at h
        cases h
        exact ⟨List.mem_cons_self _ _, hx⟩
      · rw [findTodo, if_neg hx] at h
        have := ih h
        exact ⟨List.mem_cons_of_mem x this.1, this.2⟩

theorem length_removeFirst_of_mem [DecidableEq α] (x : α) (l : List α)
    (h : x ∈ l) : (removeFirst x l).length + 1 = l.length := by
  induction l with
  | nil => cases h
  | cons y ys ih =>
      by_cases hy : y = x
      · rw [removeFirst, if_pos hy]
        rfl
      · rw [removeFirst, if_neg hy]
        have hmem : x ∈ ys := by
          cases List.mem_cons.mp h with
          | inl heq => exact absurd heq.symm hy
          | inr hm => exact hm
        simp only [List.length_cons]
        rw [← ih hmem]

theorem getByGuid_guid (repo : Repo) (g : String) (t : Task)
    (h : getByGuid repo g = some t) : t.guid = g := by
  induction repo with
  | nil => exact absurd h (by simp [getByGuid])
  | cons x xs ih =>
      by_cases hx : x.guid = g
      · rw [getByGuid, if_pos hx] at h
        cases h
        exact hx
      · rw [getByGuid, if_neg hx] at h
        exact ih h

theorem repoUpdate_of_getByGuid (repo : Repo) (g : String) (t t' : Task)
    (h : getByGuid repo g = some t) (hg : t'.guid = t.guid) :
    ∃ repo', repoUpdate repo t' = some repo' ∧ getByGuid repo' g = some t' := by
  have htg : t.guid = g := getByGuid_guid repo g t h
  induction repo with
  | nil => exact absurd h (by simp [getByGuid])
  | cons x xs ih =>
      by_cases hx : x.guid = g
      · rw [getByGuid, if_pos hx] at h
        cases h
        refine ⟨t' :: xs, ?_, ?_⟩
        · rw [repoUpdate, if_pos (by rw [hg, hx])]
        · rw [getByGuid, if_pos (by rw [hg, htg])]
      · rw [getByGuid, if_neg hx] at h
        obtain ⟨repo'', hup, hget⟩ := ih h
        refine ⟨x :: repo'', ?_, ?_⟩
        · have hxt : ¬ x.guid = t'.guid := by
            rw [hg, htg]
            exact hx
          rw [repoUpdate, if_neg hxt, hup]
          rfl
        · rw [getByGuid, if_neg hx]
          exact hget

theorem ToDoItem.mark_complete_idem (n1 n2 : DateTime) (it : ToDoItem) :
    ToDoItem.mark_complete n2 (ToDoItem.mark_complete n1 it) =
      ToDoItem.mark_complete n1 it := by
  by_cases h : it.completed <;> simp [ToDoItem.mark_complete, h]

/-! Claim theorems. -/

/-- C1: for every Task starting from an empty item list, after any finite
sequence of `add_todo_item`, `remove_todo_item` and `reorder_item`
operations, the owned items' positions are exactly `[1, ..., N]` in stored
order, so the set `{1..N}` with no duplicates or gaps, position order
matching sequence order. -/
theorem c1_item_positions_invariant (t : Task) (h : t.todo = [])
    (ops : List TodoOp) :
    itemsNormalized (runOps t ops).todo ∧
    ∀ p : Int, (∃ it ∈ (runOps t ops).todo, it.position = p) ↔
      1 ≤ p ∧ p ≤ (runOps t ops).todo.length := by
  have h0 : itemsNormalized t.todo := by
    rw [h]
    rfl
  have hn := itemsNormalized_runOps t ops h0
  exact ⟨hn, fun p => positions_set_of_normalized _ hn p⟩

/-- Witness for C1 on a concrete operation sequence. -/
theorem c1_witness :
    itemsNormalized (runOps task0
      [TodoOp.add itA, TodoOp.add itB, TodoOp.reorder "a" 2,
        TodoOp.remove "b"]).todo ∧
    ∀ p : Int, (∃ it ∈ (runOps task0
      [TodoOp.add itA, TodoOp.add itB, TodoOp.reorder "a" 2,
        TodoOp.remove "b"]).todo, it.position = p) ↔
      1 ≤ p ∧ p ≤ (runOps task0
      [TodoOp.add itA, TodoOp.add itB, TodoOp.reorder "a" 2,
        TodoOp.remove "b"]).todo.length :=
  c1_item_positions_invariant task0 rfl _

/-- C2: after every completed `TaskService.create`, `TaskService.delete` or
`TaskService.move_task`, the stored tasks' positions are exactly
`[1, ..., M]` for `M` the stored task count. -/
theorem c2_collection_positions_invariant :
    (∀ (repo : Repo) (t : Task), tasksNormalized (TaskService.create repo t)) ∧
    (∀ (repo : Repo) (g : String), tasksNormalized (TaskService.delete repo g)) ∧
    (∀ (repo : Repo) (g : String) (p : Int) (r : Repo),
      TaskService.move_task repo g p = some r → tasksNormalized r) := by
  refine ⟨fun repo t => tasksNormalized_normalizeAll _,
    fun repo g => tasksNormalized_normalizeAll _,
    fun repo g p r hr => ?_⟩
  unfold TaskService.move_task at hr
  cases hg : getByGuid repo g with
  | none =>
      rw [hg] at hr
      cases hr
  | some t =>
      rw [hg] at hr
      cases hr
      exact tasksNormalized_assignPos _

/-- Witness for C2 on concrete collections, including a completing move. -/
theorem c2_witness :
    tasksNormalized (TaskService.create [] task3) ∧
    tasksNormalized (TaskService.delete [task3] "t") ∧
    tasksNormalized [task3] :=
  ⟨c2_collection_positions_invariant.1 [] task3,
   c2_collection_positions_invariant.2.1 [task3] "t",
   c2_collection_positions_invariant.2.2 [task3] "t" 1 [task3] (by decide)⟩

/-- C3 counterexample: the claim says any `new_position ≤ 1` places the
item at the front, but `reorder_item` of item `c` to position `0` in a task
with items `[a, b, c]` yields order `[a, c, b]`: Python's `insert` treats
the negative index `-1` as counting from the end of the remaining list. -/
theorem c3_counterexample :
    (Task.reorder_item task3 "c" 0).map (fun t => t.todo.map ToDoItem.guid) =
      some ["a", "c", "b"] ∧
    ¬ ((Task.reorder_item task3 "c" 0).map (fun t => t.todo.map ToDoItem.guid) =
      some ["c", "a", "b"]) := by
  decide

/-- C3 (amended): `reorder_item(item_id, p)` never raises for an
out-of-range `p` on a present item; `p = 1` (or any `p ≤ 2 - N`) places the
item at the front, `p ≥ N` places it at the end, values `2 - N < p ≤ 0`
index from the end of the remaining `N - 1` items, and positions are always
renormalized to `1..N` in final order. -/
theorem c3_amended_reorder_clamps (t : Task) (g : String) (p : Int)
    (it : ToDoItem) (h : findTodo g t.todo = some it) :
    ∃ t', t.reorder_item g p = some t' ∧
      t'.todo.length = t.todo.length ∧
      itemsNormalized t'.todo ∧
      (p = 1 ∨ p ≤ 2 - (t.todo.length : Int) →
        (t'.todo.map (·.guid)).head? = some it.guid) ∧
      ((t.todo.length : Int) ≤ p →
        (t'.todo.map (·.guid)).getLast? = some it.guid) := by
  obtain ⟨hmem, hguid⟩ := findTodo_mem g t.todo it h
  have hlen : (removeFirst it t.todo).length + 1 = t.todo.length :=
    length_removeFirst_of_mem it t.todo hmem
  have hmapg : (Task.normalizePositions
        (pyInsert (removeFirst it t.todo) (p - 1) it)).map (·.guid) =
      pyInsert ((removeFirst it t.todo).map (·.guid)) (p - 1) it.guid := by
    rw [Task.normalizePositions, map_guid_normAux, map_pyInsert]
  refine
    ⟨{ t with todo := Task.normalizePositions (pyInsert (removeFirst it t.todo) (p - 1) it) },
      ?_, ?_, ?_, ?_, ?_⟩
  · unfold Task.reorder_item
    rw [h]
  · show (Task.normalizePositions _).length = _
    rw [Task.normalizePositions, length_normAux, length_pyInsert]
    exact hlen
  · exact itemsNormalized_normalizePositions _
  · intro hp
    show ((Task.normalizePositions _).map (·.guid)).head? = some it.guid
    rw [hmapg, pyInsert_front]
    · rfl
    · rw [List.length_map]
      rcases hp with hp1 | hp2
      · left
        omega
      · right
        omega
  · intro hp
    show ((Task.normalizePositions _).map (·.guid)).getLast? = some it.guid
    rw [hmapg, pyInsert_back]
    · exact List.getLast?_concat _
    · rw [List.length_map]
      omega

/-- Witness for the amended C3: moving item `a` of a 3-item task to
position 5 clamps to the end. -/
theorem c3_amended_witness :
    ∃ t', task3.reorder_item "a" 5 = some t' ∧
      t'.todo.length = task3.todo.length ∧
      itemsNormalized t'.todo ∧
      ((5 : Int) = 1 ∨ (5 : Int) ≤ 2 - (task3.todo.length : Int) →
        (t'.todo.map (·.guid)).head? = some itA.guid) ∧
      ((task3.todo.length : Int) ≤ 5 →
        (t'.todo.map (·.guid)).getLast? = some itA.guid) :=
  c3_amended_reorder_clamps task3 "a" 5 itA (by decide)

/-- C4: the code is wrong about the claim. In a collection holding the
single task `task0` at position 1, `update_task` with a `position := 5`
field runs the renormalization pass on the previously stored positions and
only afterwards writes back the patched task, so the stored collection ends
at positions `[5]`, not the contiguous `{1}` that the spec requires. -/
theorem c4_unnormalized_after_position_update :
    TaskService.update_task [task0] "e" { position := some 5 } =
      some [{ task0 with position := 5 }] ∧
    ¬ tasksNormalized [{ task0 with position := 5 }] := by
  constructor
  · decide
  · unfold tasksNormalized
    decide

/-- C5: the persisted dictionary form round-trips exactly, for tasks with
their nested items and for items alone, including absent optional
timestamps: `from_dict (to_dict x) = x` field-for-field. -/
theorem c5_roundtrip :
    (∀ t : Task, Task.fromDict t.toDict = some t) ∧
    (∀ it : ToDoItem, ToDoItem.fromDict it.toDict = some it) :=
  ⟨task_fromDict_toDict, todoItem_fromDict_toDict⟩

/-- C6 counterexample: `ToDoItem.create` performs no validation, so the
empty string does not fail: it returns an ordinary item with empty text. -/
theorem c6_counterexample :
    ToDoItem.create "" "g" 0 =
      { guid := "g", text := "", position := 0, completed := false,
        created_at := 0, completed_at := none } :=
  rfl

/-- C6 (amended): `ToDoItem.create(text)` never fails: for every text,
including the empty string, it returns a new item whose position is 0
(unassigned), whose completed flag is false and whose completion timestamp
is absent. -/
theorem c6_amended_create_no_validation (text guid : String) (now : DateTime) :
    (ToDoItem.create text guid now).position = 0 ∧
    (ToDoItem.create text guid now).completed = false ∧
    (ToDoItem.create text guid now).text = text ∧
    (ToDoItem.create text guid now).completed_at = none :=
  ⟨rfl, rfl, rfl, rfl⟩

/-- C7 counterexample: `Task.mark_complete` is not idempotent as claimed:
a second call at a later clock value changes the observable state, because
`completed_at` is unconditionally refreshed. -/
theorem c7_counterexample :
    Task.mark_complete 1 (Task.mark_complete 0 task3) ≠
      Task.mark_complete 0 task3 := by
  decide

/-- C7 (amended): a second `Task.mark_complete` changes nothing observable
except `completed_at`, which is overwritten with the second call's current
time; state and every owned item's completion flag and timestamp are
unchanged from the first call. -/
theorem c7_amended_mark_complete_idem (t : Task) (n1 n2 : DateTime) :
    Task.mark_complete n2 (Task.mark_complete n1 t) =
      { Task.mark_complete n1 t with completed_at := some n2 } := by
  have hmap : (t.todo.map (ToDoItem.mark_complete n1)).map
        (ToDoItem.mark_complete n2) = t.todo.map (ToDoItem.mark_complete n1) := by
    rw [List.map_map]
    exact List.map_congr_left (fun it _ => ToDoItem.mark_complete_idem n1 n2 it)
  simp [Task.mark_complete, hmap]

/-- C8: `filter_due_soon(days)` at time `now` keeps exactly the tasks of
its effective input whose deadline lies in the closed interval
`[now, now + days·86400]`, both endpoints included, returning a sublist of
(hence unmutated elements of) that input. -/
theorem c8_filter_due_soon_exact (days : Nat) (now : DateTime)
    (arg : Option (List Task)) (repo : Repo) :
    (TaskService.filter_due_soon days now arg repo).Sublist
      (TaskService.pickTasks arg repo) ∧
    ∀ t : Task, t ∈ TaskService.filter_due_soon days now arg repo ↔
      t ∈ TaskService.pickTasks arg repo ∧
        now ≤ t.deadline ∧ t.deadline ≤ now + days * 86400 := by
  constructor
  · exact List.filter_sublist _
  · intro t
    simp [TaskService.filter_due_soon, List.mem_filter, and_assoc]

/-- C9: `set_state` changes only the state field of the addressed task:
the task stored afterwards agrees with the original on title, description,
position, deadline, created_at, created_by, responsible, completed_at and
the item list — in particular a completed task keeps its completion
timestamp when moved to another state. -/
theorem c9_set_state_frame (repo : Repo) (g : String) (s : State) (t : Task)
    (h : getByGuid repo g = some t) :
    ∃ repo' t', TaskService.set_state repo g s = some repo' ∧
      getByGuid repo' g = some t' ∧ t'.state = s ∧ t'.title = t.title ∧
      t'.description = t.description ∧ t'.position = t.position ∧
      t'.deadline = t.deadline ∧ t'.created_at = t.created_at ∧
      t'.created_by = t.created_by ∧ t'.responsible = t.responsible ∧
      t'.completed_at = t.completed_at ∧ t'.todo = t.todo := by
  obtain ⟨repo', hup, hget⟩ :=
    repoUpdate_of_getByGuid repo g t { t with state := s } h rfl
  refine ⟨repo', { t with state := s }, ?_, hget, rfl, rfl, rfl, rfl, rfl,
    rfl, rfl, rfl, rfl, rfl⟩
  unfold TaskService.set_state
  rw [h]
  exact hup

/-- Witness for C9: demoting a completed task keeps its completion
timestamp. -/
theorem c9_witness :
    ∃ repo' t', TaskService.set_state [taskDone] "d" State.pending = some repo' ∧
      getByGuid repo' "d" = some t' ∧ t'.state = State.pending ∧
      t'.title = taskDone.title ∧
      t'.description = taskDone.description ∧ t'.position = taskDone.position ∧
      t'.deadline = taskDone.deadline ∧ t'.created_at = taskDone.created_at ∧
      t'.created_by = taskDone.created_by ∧
      t'.responsible = taskDone.responsible ∧
      t'.completed_at = taskDone.completed_at ∧ t'.todo = taskDone.todo :=
  c9_set_state_frame [taskDone] "d" State.pending taskDone (by decide)

/-- C10: each filter called with an explicitly empty task list falls back
to the stored collection, behaving exactly as if no list had been
provided. -/
theorem c10_empty_arg_falls_back (s : State) (kw : String) (days : Nat)
    (now : DateTime) (repo : Repo) :
    TaskService.filter_by_state s (some []) repo =
      TaskService.filter_by_state s none repo ∧
    TaskService.filter_by_title kw (some []) repo =
      TaskService.filter_by_title kw none repo ∧
    TaskService.filter_due_soon days now (some []) repo =
      TaskService.filter_due_soon days now none repo :=
  ⟨rfl, rfl, rfl⟩

end TaskManager
